import Mathlib

/-!
# Verification of the ICMP Echo message codec

A shallow embedding of the message codec from `include/icmp_message.h` and
`src/icmp_message.cc`: the `IcmpMessage` data model, the RFC 1071 Internet
checksum (`ComputeChecksum`), serialization (`Encode`) and parsing (`Decode`).

Machine integers are modelled as `Nat` with explicit reductions:
`% 4294967296` for `uint32_t` arithmetic, `% 65536` for `uint16_t`
truncation, `% 256` for `uint8_t` narrowing. Byte buffers
(`std::vector<uint8_t>`) are `List Nat` together with a well-formedness
predicate bounding every element by 256.
-/

/-- The `IcmpMessage` class of `include/icmp_message.h`: private members
`type_`, `code_`, `checksum_`, `identifier_`, `sequence_number_` (machine
integers, modelled as `Nat`) and the payload `data_`
(`std::vector<uint8_t>`, modelled as `List Nat`). -/
structure IcmpMessage where
  type_ : Nat
  code_ : Nat
  checksum_ : Nat
  identifier_ : Nat
  sequence_number_ : Nat
  data_ : List Nat
deriving DecidableEq, Repr

/-- Well-formedness: the bounds the C++ member types (`uint8_t`,
`uint16_t`, `std::vector<uint8_t>`) impose on every reachable
`IcmpMessage` value. -/
def IcmpMessage.WF (m : IcmpMessage) : Prop :=
  m.type_ < 256 ∧ m.code_ < 256 ∧ m.checksum_ < 65536 ∧
  m.identifier_ < 65536 ∧ m.sequence_number_ < 65536 ∧
  ∀ x ∈ m.data_, x < 256

instance (m : IcmpMessage) : Decidable m.WF := by
  unfold IcmpMessage.WF; infer_instance

/-- The default constructor `IcmpMessage::IcmpMessage()`
(`src/icmp_message.cc` lines 14–15): type 8 (Echo Request), everything
else zero, empty payload. -/
def IcmpMessage.mkDefault : IcmpMessage :=
  { type_ := 8, code_ := 0, checksum_ := 0, identifier_ := 0,
    sequence_number_ := 0, data_ := [] }

/-- The parameterized constructor
`IcmpMessage::IcmpMessage(type, code, id, seq, data)`
(`src/icmp_message.cc` lines 28–31): stores the five arguments and sets
`checksum_` to 0. -/
def IcmpMessage.mkParam (t c id seq : Nat) (d : List Nat) : IcmpMessage :=
  { type_ := t, code_ := c, checksum_ := 0, identifier_ := id,
    sequence_number_ := seq, data_ := d }

/-- Accessor `type()` of `include/icmp_message.h`. -/
def IcmpMessage.type (m : IcmpMessage) : Nat := m.type_

/-- Accessor `code()` of `include/icmp_message.h`. -/
def IcmpMessage.code (m : IcmpMessage) : Nat := m.code_

/-- Accessor `identifier()` of `include/icmp_message.h`. -/
def IcmpMessage.identifier (m : IcmpMessage) : Nat := m.identifier_

/-- Accessor `sequence_number()` of `include/icmp_message.h`. -/
def IcmpMessage.sequence_number (m : IcmpMessage) : Nat := m.sequence_number_

/-- Accessor `data()` of `include/icmp_message.h`. -/
def IcmpMessage.data (m : IcmpMessage) : List Nat := m.data_

/-- The names of the public read-only accessor methods declared in the
public section of `include/icmp_message.h` (lines 40–62): `type()`,
`code()`, `identifier()`, `sequence_number()`, `data()`. The private
member `checksum_` has no accessor in the header. -/
def IcmpMessage.publicAccessors : List String :=
  ["type", "code", "identifier", "sequence_number", "data"]

/-- The summation phase of `IcmpMessage::ComputeChecksum`
(`src/icmp_message.cc` lines 81–94): the `for` loop adding the
big-endian 16-bit words `(buffer[i] << 8) | buffer[i+1]` into the
`uint32_t` accumulator `sum`, followed by the odd-length step that adds
`buffer.back() << 8` (truncated to `uint16_t`) when one byte remains. -/
def sumAccum (sum : Nat) : List Nat → Nat
  | b0 :: b1 :: rest =>
      sumAccum ((sum + (((b0 <<< 8) ||| b1) % 65536)) % 4294967296) rest
  | [b0] => (sum + ((b0 <<< 8) % 65536)) % 4294967296
  | [] => sum

/-- Fuel-indexed unfolding of the carry-fold `while (sum >> 16)` loop of
`IcmpMessage::ComputeChecksum` (`src/icmp_message.cc` lines 96–98); the
body is `sum = (sum & 0xFFFF) + (sum >> 16)` in `uint32_t` arithmetic. -/
def foldCarryFuel : Nat → Nat → Nat
  | 0, sum => sum
  | fuel + 1, sum =>
      if sum >>> 16 = 0 then sum
      else foldCarryFuel fuel ((sum % 65536 + sum >>> 16) % 4294967296)

/-- The carry-fold `while` loop itself: since every executed iteration
strictly decreases `sum`, a fuel of `sum` always suffices. -/
def foldCarry (sum : Nat) : Nat := foldCarryFuel sum sum

/-- One guarded iteration of the carry-fold loop: the loop body when the
guard `sum >> 16` is non-zero, the identity otherwise. -/
def foldStep (sum : Nat) : Nat :=
  if sum >>> 16 = 0 then sum else (sum % 65536 + sum >>> 16) % 4294967296

/-- `IcmpMessage::ComputeChecksum` (`src/icmp_message.cc` lines 80–102):
word summation, carry folding, then the bitwise one's complement `~sum`
on `uint32_t` (which is `4294967295 - sum`) cast to `uint16_t`. -/
def ComputeChecksum (buffer : List Nat) : Nat :=
  (4294967295 - foldCarry (sumAccum 0 buffer)) % 65536

/-- `IcmpMessage::Encode` (`src/icmp_message.cc` lines 41–68): emit the
8-byte header with a zeroed checksum field, append the payload, compute
the checksum over that buffer, and overwrite bytes 2–3 with it, high
byte first. `identifier_ >> 8` and `sequence_number_ >> 8` are narrowed
to `uint8_t` by `push_back` (`% 256`); the `& 0xFF` masks are the
source's. -/
def IcmpMessage.Encode (m : IcmpMessage) : List Nat :=
  let buffer : List Nat :=
    [m.type_, m.code_, 0, 0,
     (m.identifier_ >>> 8) % 256, m.identifier_ &&& 255,
     (m.sequence_number_ >>> 8) % 256, m.sequence_number_ &&& 255]
    ++ m.data_
  let checksum := ComputeChecksum buffer
  (buffer.set 2 ((checksum >>> 8) &&& 255)).set 3 (checksum &&& 255)

/-- Modelled from the spec: `IcmpMessage::Decode` is declared at
`include/icmp_message.h` line 37 and exercised by the tests, but its
definition is absent from the repository's source files. Following
§4.3 of the spec: reject a type byte other than 0 or 8 immediately;
reject a buffer shorter than 4 bytes; otherwise extract `code` from
byte 1 and the checksum from bytes 2–3, extract `identifier` and
`sequenceNumber` from bytes 4–7 (big-endian) when at least 8 bytes are
present and default them to 0 otherwise, and take the bytes beyond the
8-byte header as the payload. Failure is a single undifferentiated
kind (`MalformedMessage`), modelled as `none`. -/
def IcmpMessage.Decode (buffer : List Nat) : Option IcmpMessage :=
  match buffer with
  | [] => none
  | t :: _ =>
    if t ≠ 0 ∧ t ≠ 8 then none
    else if buffer.length < 4 then none
    else some
      { type_ := t
        code_ := buffer.getD 1 0
        checksum_ := 256 * buffer.getD 2 0 + buffer.getD 3 0
        identifier_ :=
          if 8 ≤ buffer.length
          then 256 * buffer.getD 4 0 + buffer.getD 5 0 else 0
        sequence_number_ :=
          if 8 ≤ buffer.length
          then 256 * buffer.getD 6 0 + buffer.getD 7 0 else 0
        data_ := buffer.drop 8 }

section Helpers

lemma and255_eq_mod (x : Nat) : x &&& 255 = x % 256 := by
  have h := Nat.and_pow_two_sub_one_eq_mod x 8
  norm_num at h
  exact h

lemma shiftRight8_eq_div (x : Nat) : x >>> 8 = x / 256 := by
  have h := Nat.shiftRight_eq_div_pow x 8
  norm_num at h
  exact h

lemma shiftRight16_eq_div (x : Nat) : x >>> 16 = x / 65536 := by
  have h := Nat.shiftRight_eq_div_pow x 16
  norm_num at h
  exact h

lemma word_eq (b0 b1 : Nat) (h0 : b0 < 256) (h1 : b1 < 256) :
    ((b0 <<< 8) ||| b1) % 65536 = 256 * b0 + b1 := by
  have hor := Nat.mul_add_lt_is_or (a := b0) (i := 8) h1
  norm_num at hor
  rw [Nat.shiftLeft_eq, Nat.mul_comm b0 (2 ^ 8)]
  norm_num
  rw [← hor]
  omega

/-- When the guard `sum >> 16` is already zero, the carry-fold loop
returns its input whatever the fuel. -/
lemma foldCarryFuel_guard (fuel s : Nat) (h : s >>> 16 = 0) :
    foldCarryFuel fuel s = s := by
  cases fuel with
  | zero => rfl
  | succ fuel => simp [foldCarryFuel, h]

/-- Each executed iteration of the carry-fold loop strictly decreases
the accumulator. -/
lemma foldCarry_next_lt (s : Nat) (h : ¬ s >>> 16 = 0) :
    (s % 65536 + s >>> 16) % 4294967296 < s := by
  rw [shiftRight16_eq_div] at h ⊢
  have hq : 1 ≤ s / 65536 := by omega
  have hmul : s / 65536 * 65536 ≤ s := Nat.div_mul_le_self s 65536
  have hmod : s % 65536 = s - s / 65536 * 65536 := by omega
  have : s % 65536 + s / 65536 < s := by
    have h16 : s / 65536 < s / 65536 * 65536 := by omega
    omega
  exact Nat.lt_of_le_of_lt (Nat.mod_le _ _) this

lemma foldCarryFuel_le (fuel s : Nat) : foldCarryFuel fuel s ≤ s := by
  induction fuel generalizing s with
  | zero => simp [foldCarryFuel]
  | succ fuel ih =>
    by_cases h : s >>> 16 = 0
    · simp [foldCarryFuel, h]
    · simp only [foldCarryFuel, h, if_false]
      exact Nat.le_of_lt (Nat.lt_of_le_of_lt (ih _) (foldCarry_next_lt s h))

lemma foldCarryFuel_lt (fuel s : Nat) (h : s ≤ fuel) :
    foldCarryFuel fuel s < 65536 := by
  induction fuel generalizing s with
  | zero =>
    have : s = 0 := by omega
    simp [this, foldCarryFuel]
  | succ fuel ih =>
    by_cases hg : s >>> 16 = 0
    · rw [foldCarryFuel_guard _ _ hg]
      rw [shiftRight16_eq_div] at hg
      omega
    · simp only [foldCarryFuel, hg, if_false]
      exact ih _ (by have := foldCarry_next_lt s hg; omega)

lemma foldCarryFuel_pos (fuel s : Nat) (h : 0 < s) (h32 : s < 4294967296) :
    0 < foldCarryFuel fuel s := by
  induction fuel generalizing s with
  | zero => simpa [foldCarryFuel] using h
  | succ fuel ih =>
    by_cases hg : s >>> 16 = 0
    · simpa [foldCarryFuel, hg] using h
    · simp only [foldCarryFuel, hg, if_false]
      rw [shiftRight16_eq_div] at hg ⊢
      have hq : s / 65536 < 65536 := by omega
      have h1 : 1 ≤ s / 65536 := by omega
      have hm : s % 65536 < 65536 := Nat.mod_lt _ (by omega)
      rw [Nat.mod_eq_of_lt (by omega)]
      exact ih _ (by omega) (by omega)

/-- The carry fold preserves the value modulo 65535 (because
`65536 ≡ 1`), as long as the accumulator fits in `uint32_t` so that the
`% 2^32` reductions are vacuous. -/
lemma foldCarryFuel_mod (fuel s : Nat) (h : s < 4294967296) :
    foldCarryFuel fuel s % 65535 = s % 65535 := by
  induction fuel generalizing s with
  | zero => simp [foldCarryFuel]
  | succ fuel ih =>
    by_cases hg : s >>> 16 = 0
    · simp [foldCarryFuel, hg]
    · simp only [foldCarryFuel, hg, if_false]
      rw [shiftRight16_eq_div] at hg ⊢
      have hq : s / 65536 < 65536 := by omega
      have hsmall : s % 65536 + s / 65536 < 4294967296 := by omega
      rw [Nat.mod_eq_of_lt hsmall, ih _ (by omega)]
      omega

/-- Changing the fuel does not change the result once the fuel is at
least the accumulator. -/
lemma foldCarryFuel_irrel (fuel fuel' s : Nat) (h : s ≤ fuel)
    (h' : fuel ≤ fuel') : foldCarryFuel fuel' s = foldCarryFuel fuel s := by
  induction fuel generalizing s fuel' with
  | zero =>
    have : s = 0 := by omega
    subst this
    exact foldCarryFuel_guard _ _ (by simp)
  | succ fuel ih =>
    by_cases hg : s >>> 16 = 0
    · rw [foldCarryFuel_guard _ _ hg, foldCarryFuel_guard _ _ hg]
    · obtain ⟨fuel2, rfl⟩ : ∃ k, fuel' = k + 1 := ⟨fuel' - 1, by omega⟩
      simp only [foldCarryFuel, hg, if_false]
      have hlt := foldCarry_next_lt s hg
      rw [ih _ _ (by omega) (by omega)]

lemma foldCarry_lt (s : Nat) : foldCarry s < 65536 :=
  foldCarryFuel_lt s s (Nat.le_refl s)

lemma foldCarry_le (s : Nat) : foldCarry s ≤ s := foldCarryFuel_le s s

lemma foldCarry_pos (s : Nat) (h : 0 < s) (h32 : s < 4294967296) :
    0 < foldCarry s := foldCarryFuel_pos s s h h32

lemma foldCarry_mod (s : Nat) (h : s < 4294967296) :
    foldCarry s % 65535 = s % 65535 := foldCarryFuel_mod s s h

/-- The carry-fold loop satisfies the `while` loop's defining
equation. -/
lemma foldCarry_unfold (s : Nat) :
    foldCarry s = if s >>> 16 = 0 then s
      else foldCarry ((s % 65536 + s >>> 16) % 4294967296) := by
  by_cases hg : s >>> 16 = 0
  · simp [foldCarry, foldCarryFuel_guard _ _ hg, hg]
  · simp only [hg, if_false]
    have hpos : 1 ≤ s := by
      rcases Nat.eq_zero_or_pos s with h0 | h1
      · exact absurd (by simp [h0]) hg
      · exact h1
    obtain ⟨k, rfl⟩ : ∃ k, s = k + 1 := ⟨s - 1, by omega⟩
    show foldCarryFuel (k + 1) (k + 1) = _
    simp only [foldCarryFuel, hg, if_false]
    have hlt := foldCarry_next_lt (k + 1) hg
    exact foldCarryFuel_irrel _ k _ (by omega) (by omega)

lemma sumAccum_lt (s : Nat) (b : List Nat) (h : s < 4294967296) :
    sumAccum s b < 4294967296 := by
  induction s, b using sumAccum.induct with
  | case1 s b0 b1 rest ih => exact ih (Nat.mod_lt _ (by omega))
  | case2 s b0 => exact Nat.mod_lt _ (by omega)
  | case3 s => simpa [sumAccum] using h

/-- Induction principle matching the two-bytes-per-iteration recursion
of the checksum's summation loop. -/
lemma pairRec {motive : List Nat → Prop} (h0 : motive [])
    (h1 : ∀ b0, motive [b0])
    (h2 : ∀ b0 b1 rest, motive rest → motive (b0 :: b1 :: rest))
    (b : List Nat) : motive b := by
  have key : ∀ n b, List.length b ≤ n → motive b := by
    intro n
    induction n with
    | zero =>
      intro b hb
      cases b with
      | nil => exact h0
      | cons x tl => simp at hb
    | succ n ih =>
      intro b hb
      match b with
      | [] => exact h0
      | [b0] => exact h1 b0
      | b0 :: b1 :: rest =>
        refine h2 b0 b1 rest (ih rest ?_)
        simp at hb
        omega
  exact key b.length b (Nat.le_refl _)

/-- The accumulator can be split off: summing from `s` is summing from
0 and adding `s`, all modulo `2^32`. -/
lemma sumAccum_shift (b : List Nat) : ∀ s : Nat, s < 4294967296 →
    sumAccum s b = (s + sumAccum 0 b) % 4294967296 := by
  induction b using pairRec with
  | h0 => intro s h; simp [sumAccum, Nat.mod_eq_of_lt h]
  | h1 b0 =>
    intro s h
    show (s + (b0 <<< 8) % 65536) % 4294967296 =
      (s + (0 + (b0 <<< 8) % 65536) % 4294967296) % 4294967296
    have := Nat.mod_lt (b0 <<< 8) (y := 65536)
    omega
  | h2 b0 b1 rest ih =>
    intro s h
    show sumAccum ((s + (b0 <<< 8 ||| b1) % 65536) % 4294967296) rest =
      (s + sumAccum ((0 + (b0 <<< 8 ||| b1) % 65536) % 4294967296) rest)
        % 4294967296
    rw [ih _ (Nat.mod_lt _ (by omega)), ih _ (Nat.mod_lt _ (by omega))]
    have h1 := Nat.mod_lt ((b0 <<< 8 ||| b1) % 65536) (y := 4294967296)
    omega

/-- The heart of the Internet-checksum verification identity: re-folding
a `uint32_t` one's-complement sum after adding the complement of its own
fold yields `0xFFFF`. -/
lemma foldCarry_verify (a : Nat) (ha : a < 4294967296) :
    foldCarry ((a + (65535 - foldCarry a)) % 4294967296) = 65535 := by
  set S := foldCarry a with hS
  have hSlt : S < 65536 := foldCarry_lt a
  have hSle : S ≤ a := foldCarry_le a
  have hSmod : S % 65535 = a % 65535 := foldCarry_mod a ha
  -- the folded difference is a multiple of 65535 strictly below 2^32 - 65535
  have hdvd : (a - S) % 65535 = 0 := by omega
  have hbound : a - S ≤ 4294901760 := by
    by_contra hcon
    have h1 : 4294901760 < a - S := by omega
    have h2 : a - S < 4294967296 := by omega
    -- the only multiple of 65535 in that range is 4294967295 = 65535 * 65537,
    -- which forces S = 0 while a = 4294967295 > 0, impossible since the
    -- fold of a positive uint32 value is positive
    have hSpos : 0 < S := foldCarry_pos a (by omega) ha
    omega
  have hx : a + (65535 - S) < 4294967296 := by omega
  rw [Nat.mod_eq_of_lt hx]
  set x := a + (65535 - S) with hxdef
  have hx0 : 0 < x := by omega
  have hxmod : x % 65535 = 0 := by omega
  have hfold : foldCarry x % 65535 = x % 65535 := foldCarry_mod x (by omega)
  have hflt : foldCarry x < 65536 := foldCarry_lt x
  have hfpos : 0 < foldCarry x := foldCarry_pos x hx0 (by omega)
  omega

lemma checksum_lt (b : List Nat) : ComputeChecksum b < 65536 :=
  Nat.mod_lt _ (by omega)

lemma set23 (t c x2 x3 i1 i2 s1 s2 v2 v3 : Nat) (rest : List Nat) :
    ((t :: c :: x2 :: x3 :: i1 :: i2 :: s1 :: s2 :: rest).set 2 v2).set 3 v3
      = t :: c :: v2 :: v3 :: i1 :: i2 :: s1 :: s2 :: rest := rfl

/-- `Encode` written out: the emitted buffer is the 8-byte header with
the checksum of the zero-checksum buffer at bytes 2–3 (high byte first),
the identifier and sequence number split big-endian, then the payload. -/
lemma encode_eq (m : IcmpMessage) (hid : m.identifier_ < 65536)
    (hseq : m.sequence_number_ < 65536) :
    m.Encode =
      m.type_ :: m.code_ ::
      ComputeChecksum (m.type_ :: m.code_ :: 0 :: 0 ::
        m.identifier_ / 256 :: m.identifier_ % 256 ::
        m.sequence_number_ / 256 :: m.sequence_number_ % 256 :: m.data_)
        / 256 ::
      ComputeChecksum (m.type_ :: m.code_ :: 0 :: 0 ::
        m.identifier_ / 256 :: m.identifier_ % 256 ::
        m.sequence_number_ / 256 :: m.sequence_number_ % 256 :: m.data_)
        % 256 ::
      m.identifier_ / 256 :: m.identifier_ % 256 ::
      m.sequence_number_ / 256 :: m.sequence_number_ % 256 :: m.data_ := by
  have h1 : (m.identifier_ >>> 8) % 256 = m.identifier_ / 256 := by
    rw [shiftRight8_eq_div, Nat.mod_eq_of_lt (by omega)]
  have h2 : (m.sequence_number_ >>> 8) % 256 = m.sequence_number_ / 256 := by
    rw [shiftRight8_eq_div, Nat.mod_eq_of_lt (by omega)]
  have hcs := checksum_lt (m.type_ :: m.code_ :: 0 :: 0 ::
    m.identifier_ / 256 :: m.identifier_ % 256 ::
    m.sequence_number_ / 256 :: m.sequence_number_ % 256 :: m.data_)
  have h3 : ∀ x : Nat, x < 65536 → (x >>> 8) &&& 255 = x / 256 := by
    intro x hx
    rw [and255_eq_mod, shiftRight8_eq_div, Nat.mod_eq_of_lt (by omega)]
  simp only [IcmpMessage.Encode, List.cons_append, List.nil_append,
    and255_eq_mod, h1, h2, set23, h3 _ hcs]

/-- `Decode` on a buffer of at least the full 8-byte header with a
valid type byte: every field is extracted at its wire offset. -/
lemma decode_cons (t c x2 x3 i1 i2 s1 s2 : Nat) (d : List Nat)
    (ht : t = 0 ∨ t = 8) :
    IcmpMessage.Decode (t :: c :: x2 :: x3 :: i1 :: i2 :: s1 :: s2 :: d) =
      some { type_ := t, code_ := c, checksum_ := 256 * x2 + x3,
             identifier_ := 256 * i1 + i2,
             sequence_number_ := 256 * s1 + s2, data_ := d } := by
  have hlen : (t :: c :: x2 :: x3 :: i1 :: i2 :: s1 :: s2 :: d).length
      = 8 + d.length := by simp; omega
  have hcond : ¬ (t ≠ 0 ∧ t ≠ 8) := by tauto
  simp only [IcmpMessage.Decode, hcond, if_false, hlen]
  rw [if_neg (by omega), if_pos (by omega), if_pos (by omega)]
  rfl

end Helpers

example : ComputeChecksum [8, 0, 0, 0] = 0xF7FF := by decide
example : ComputeChecksum [1] = ComputeChecksum [1, 0] := by decide
example : IcmpMessage.mkDefault.Encode = [8, 0, 0xF7, 0xFF, 0, 0, 0, 0] := by decide
example : IcmpMessage.Decode [8, 0, 0, 0] =
    some { type_ := 8, code_ := 0, checksum_ := 0, identifier_ := 0,
           sequence_number_ := 0, data_ := [] } := by decide
example : IcmpMessage.Decode [99] = none := by decide
example : IcmpMessage.Decode (IcmpMessage.Encode
    (IcmpMessage.mkParam 8 0 258 7 [1, 2, 3])) =
    some { type_ := 8, code_ := 0, checksum_ := 0xF2F4, identifier_ := 258,
           sequence_number_ := 7, data_ := [1, 2, 3] } := by decide

/-- C1: for every well-formed `IcmpMessage` whose `type_` is 0 or 8,
decoding the result of `Encode` succeeds and yields a message with the
same type, code, identifier, sequence number and payload (the checksum
field is not compared). -/
theorem round_trip_decode_encode (m : IcmpMessage) (hWF : m.WF)
    (ht : m.type_ = 0 ∨ m.type_ = 8) :
    ∃ m' : IcmpMessage, IcmpMessage.Decode m.Encode = some m' ∧
      m'.type_ = m.type_ ∧ m'.code_ = m.code_ ∧
      m'.identifier_ = m.identifier_ ∧
      m'.sequence_number_ = m.sequence_number_ ∧ m'.data_ = m.data_ := by
  obtain ⟨h1, h2, h3, h4, h5, h6⟩ := hWF
  rw [encode_eq m h4 h5, decode_cons _ _ _ _ _ _ _ _ _ ht]
  refine ⟨_, rfl, rfl, rfl, ?_, ?_, rfl⟩ <;> simp <;> omega

/-- C1 witness: a concrete Echo Request round-trips. -/
theorem round_trip_decode_encode_witness :
    ∃ m' : IcmpMessage,
      IcmpMessage.Decode (IcmpMessage.Encode
        { type_ := 8, code_ := 1, checksum_ := 0, identifier_ := 258,
          sequence_number_ := 7, data_ := [5, 6] }) = some m' ∧
      m'.type_ = 8 ∧ m'.code_ = 1 ∧ m'.identifier_ = 258 ∧
      m'.sequence_number_ = 7 ∧ m'.data_ = [5, 6] :=
  round_trip_decode_encode
    { type_ := 8, code_ := 1, checksum_ := 0, identifier_ := 258,
      sequence_number_ := 7, data_ := [5, 6] } (by decide) (Or.inr rfl)

/-- C2: `Decode` fails exactly on buffers shorter than 4 bytes or whose
first byte is neither 0 nor 8; failure is the single undifferentiated
`none` (MalformedMessage), and in particular `Decode [99]` fails. -/
theorem decode_failure_iff :
    (∀ buffer : List Nat, IcmpMessage.Decode buffer = none ↔
      (buffer.length < 4 ∨
        (buffer.getD 0 0 ≠ 0 ∧ buffer.getD 0 0 ≠ 8)))
    ∧ IcmpMessage.Decode [99] = none := by
  refine ⟨?_, by decide⟩
  intro buffer
  match buffer with
  | [] => simp [IcmpMessage.Decode]
  | t :: rest =>
    show (if t ≠ 0 ∧ t ≠ 8 then none
      else if (t :: rest).length < 4 then none else some _) = none ↔ _
    have hget : (t :: rest).getD 0 0 = t := rfl
    by_cases h1 : t ≠ 0 ∧ t ≠ 8
    · rw [if_pos h1, hget]
      exact ⟨fun _ => Or.inr h1, fun _ => rfl⟩
    · rw [if_neg h1, hget]
      by_cases h2 : (t :: rest).length < 4
      · rw [if_pos h2]
        exact ⟨fun _ => Or.inl h2, fun _ => rfl⟩
      · rw [if_neg h2]
        constructor
        · intro hc; exact absurd hc (by simp)
        · intro hc; rcases hc with hc | hc
          · exact absurd hc h2
          · exact absurd hc h1

/-- C3: `Decode` accepts every buffer of length at least 4 whose type
byte is 0 or 8; below 8 bytes the identifier and sequence number
default to 0 and the payload is empty, and in particular
`Decode [8, 0, 0, 0]` yields the all-defaults Echo Request. -/
theorem decode_min_length (buffer : List Nat) (hlen : 4 ≤ buffer.length)
    (ht : buffer.getD 0 0 = 0 ∨ buffer.getD 0 0 = 8) :
    (∃ m : IcmpMessage, IcmpMessage.Decode buffer = some m ∧
      m.type_ = buffer.getD 0 0 ∧ m.code_ = buffer.getD 1 0 ∧
      (buffer.length < 8 →
        m.identifier_ = 0 ∧ m.sequence_number_ = 0 ∧ m.data_ = []))
    ∧ IcmpMessage.Decode [8, 0, 0, 0] =
        some { type_ := 8, code_ := 0, checksum_ := 0, identifier_ := 0,
               sequence_number_ := 0, data_ := [] } := by
  refine ⟨?_, by decide⟩
  match buffer with
  | t :: rest =>
    have hget : (t :: rest).getD 0 0 = t := rfl
    rw [hget] at ht
    have hcond : ¬ (t ≠ 0 ∧ t ≠ 8) := by tauto
    have hsome : IcmpMessage.Decode (t :: rest) = some
        { type_ := t
          code_ := (t :: rest).getD 1 0
          checksum_ := 256 * (t :: rest).getD 2 0 + (t :: rest).getD 3 0
          identifier_ :=
            if 8 ≤ (t :: rest).length
            then 256 * (t :: rest).getD 4 0 + (t :: rest).getD 5 0 else 0
          sequence_number_ :=
            if 8 ≤ (t :: rest).length
            then 256 * (t :: rest).getD 6 0 + (t :: rest).getD 7 0 else 0
          data_ := (t :: rest).drop 8 } := by
      show (if t ≠ 0 ∧ t ≠ 8 then none
        else if (t :: rest).length < 4 then none else some _) = some _
      rw [if_neg hcond, if_neg (by omega)]
    refine ⟨_, hsome, hget.symm, rfl, fun h8 => ⟨?_, ?_, ?_⟩⟩
    · simp only [if_neg (by omega : ¬ 8 ≤ (t :: rest).length)]
    · simp only [if_neg (by omega : ¬ 8 ≤ (t :: rest).length)]
    · exact List.drop_eq_nil_of_le (by omega)

/-- C3 witness: the minimum-length Echo Request buffer. -/
theorem decode_min_length_witness :
    (∃ m : IcmpMessage, IcmpMessage.Decode [8, 0, 0, 0] = some m ∧
      m.type_ = [8, 0, 0, 0].getD 0 0 ∧ m.code_ = [8, 0, 0, 0].getD 1 0 ∧
      ([8, 0, 0, 0].length < 8 →
        m.identifier_ = 0 ∧ m.sequence_number_ = 0 ∧ m.data_ = []))
    ∧ IcmpMessage.Decode [8, 0, 0, 0] =
        some { type_ := 8, code_ := 0, checksum_ := 0, identifier_ := 0,
               sequence_number_ := 0, data_ := [] } :=
  decode_min_length [8, 0, 0, 0] (by decide) (by decide)

/-- C4: `Encode` is total and produces `8 + len(payload)` bytes laid
out as type, code, the checksum of the zero-checksum buffer (high byte
first), identifier big-endian, sequence number big-endian, then the
payload verbatim. -/
theorem encode_layout (m : IcmpMessage) (h : m.WF) :
    m.Encode =
      m.type_ :: m.code_ ::
      ComputeChecksum (m.type_ :: m.code_ :: 0 :: 0 ::
        m.identifier_ / 256 :: m.identifier_ % 256 ::
        m.sequence_number_ / 256 :: m.sequence_number_ % 256 :: m.data_)
        / 256 ::
      ComputeChecksum (m.type_ :: m.code_ :: 0 :: 0 ::
        m.identifier_ / 256 :: m.identifier_ % 256 ::
        m.sequence_number_ / 256 :: m.sequence_number_ % 256 :: m.data_)
        % 256 ::
      m.identifier_ / 256 :: m.identifier_ % 256 ::
      m.sequence_number_ / 256 :: m.sequence_number_ % 256 :: m.data_
    ∧ m.Encode.length = 8 + m.data_.length := by
  obtain ⟨h1, h2, h3, h4, h5, h6⟩ := h
  refine ⟨encode_eq m h4 h5, ?_⟩
  rw [encode_eq m h4 h5]
  simp
  omega

/-- C4 witness: the layout at a concrete message. -/
theorem encode_layout_witness :
    IcmpMessage.Encode
      { type_ := 8, code_ := 1, checksum_ := 0, identifier_ := 258,
        sequence_number_ := 7, data_ := [5] } =
      8 :: 1 ::
      ComputeChecksum (8 :: 1 :: 0 :: 0 :: 258 / 256 :: 258 % 256 ::
        7 / 256 :: 7 % 256 :: [5]) / 256 ::
      ComputeChecksum (8 :: 1 :: 0 :: 0 :: 258 / 256 :: 258 % 256 ::
        7 / 256 :: 7 % 256 :: [5]) % 256 ::
      258 / 256 :: 258 % 256 :: 7 / 256 :: 7 % 256 :: [5]
    ∧ (IcmpMessage.Encode
        { type_ := 8, code_ := 1, checksum_ := 0, identifier_ := 258,
          sequence_number_ := 7, data_ := [5] }).length = 8 + [5].length :=
  encode_layout
    { type_ := 8, code_ := 1, checksum_ := 0, identifier_ := 258,
      sequence_number_ := 7, data_ := [5] } (by decide)

/-- C5: encoding the default-constructed message (Echo Request, empty
payload) yields exactly the 8 bytes `[8, 0, csHi, csLo, 0, 0, 0, 0]`
where `csHi, csLo` split the checksum of `[8,0,0,0,0,0,0,0]`. -/
theorem encode_default_shape :
    IcmpMessage.mkDefault.Encode =
      [8, 0, ComputeChecksum [8, 0, 0, 0, 0, 0, 0, 0] / 256,
       ComputeChecksum [8, 0, 0, 0, 0, 0, 0, 0] % 256, 0, 0, 0, 0]
    ∧ IcmpMessage.mkDefault.Encode.length = 8 := by decide

/-- C6: `ComputeChecksum` is total over every byte sequence, always
returns a 16-bit value, and on `[8,0,0,0]` returns the one's complement
of `0x0800 + 0x0000`, namely `0xF7FF`. -/
theorem checksum_total_16bit :
    (∀ buffer : List Nat, ComputeChecksum buffer < 65536)
    ∧ ComputeChecksum [8, 0, 0, 0] = 65535 - (0x0800 + 0x0000)
    ∧ ComputeChecksum [8, 0, 0, 0] = 0xF7FF :=
  ⟨checksum_lt, by decide, by decide⟩

/-- C7: appending a single zero byte to an odd-length buffer does not
change the checksum (the final byte is the high byte of a zero-padded
word); in particular on `[0x01]`. -/
theorem checksum_odd_padding :
    (∀ b : List Nat, b.length % 2 = 1 →
      ComputeChecksum (b ++ [0]) = ComputeChecksum b)
    ∧ ComputeChecksum [0x01] = ComputeChecksum [0x01, 0x00] := by
  have key : ∀ b : List Nat, b.length % 2 = 1 → ∀ s : Nat,
      sumAccum s (b ++ [0]) = sumAccum s b := by
    intro b
    induction b using pairRec with
    | h0 => intro h; simp at h
    | h1 b0 =>
      intro _ s
      show sumAccum ((s + (b0 <<< 8 ||| 0) % 65536) % 4294967296) [] =
        (s + (b0 <<< 8) % 65536) % 4294967296
      simp [sumAccum, Nat.or_zero]
    | h2 b0 b1 rest ih =>
      intro h s
      show sumAccum ((s + (b0 <<< 8 ||| b1) % 65536) % 4294967296)
          (rest ++ [0]) = _
      rw [ih (by simp at h ⊢; omega)]
      rfl
  refine ⟨fun b hb => ?_, by decide⟩
  unfold ComputeChecksum
  rw [key b hb]

/-- C7 witness: the single-byte buffer `[0x01]`. -/
theorem checksum_odd_padding_witness :
    ComputeChecksum ([0x01] ++ [0]) = ComputeChecksum [0x01] :=
  checksum_odd_padding.1 [0x01] (by decide)

lemma sumAccum_cons2 (b0 b1 : Nat) (rest : List Nat) :
    sumAccum 0 (b0 :: b1 :: rest)
      = ((b0 <<< 8 ||| b1) % 65536 + sumAccum 0 rest) % 4294967296 := by
  show sumAccum ((0 + (b0 <<< 8 ||| b1) % 65536) % 4294967296) rest = _
  rw [sumAccum_shift rest _ (Nat.mod_lt _ (by omega))]
  omega

/-- Core of the verification identity: for any buffer of shape
header-with-checksum-in-place, the folded one's-complement sum is
`0xFFFF`. -/
lemma self_consistency_core (t c : Nat) (R : List Nat) :
    foldCarry (sumAccum 0 (t :: c ::
      ComputeChecksum (t :: c :: 0 :: 0 :: R) / 256 ::
      ComputeChecksum (t :: c :: 0 :: 0 :: R) % 256 :: R)) = 65535 := by
  set cs := ComputeChecksum (t :: c :: 0 :: 0 :: R) with hcsdef
  have hcslt : cs < 65536 := checksum_lt _
  have hA : sumAccum 0 R < 4294967296 := sumAccum_lt 0 R (by omega)
  have hzb : sumAccum 0 (t :: c :: 0 :: 0 :: R) < 4294967296 :=
    sumAccum_lt _ _ (by omega)
  have h00 : sumAccum 0 ((0 : Nat) :: 0 :: R) = sumAccum 0 R := by
    show sumAccum ((0 + (0 <<< 8 ||| 0) % 65536) % 4294967296) R
      = sumAccum 0 R
    norm_num
  have hzbsum : sumAccum 0 (t :: c :: 0 :: 0 :: R)
      = ((t <<< 8 ||| c) % 65536 + sumAccum 0 R) % 4294967296 := by
    rw [sumAccum_cons2, h00]
  have hcsword : sumAccum 0 (cs / 256 :: cs % 256 :: R)
      = (cs + sumAccum 0 R) % 4294967296 := by
    rw [sumAccum_cons2, word_eq _ _ (by omega) (by omega)]
    omega
  have hEsum : sumAccum 0 (t :: c :: cs / 256 :: cs % 256 :: R)
      = (sumAccum 0 (t :: c :: 0 :: 0 :: R) + cs) % 4294967296 := by
    rw [sumAccum_cons2 t c (cs / 256 :: cs % 256 :: R), hcsword, hzbsum]
    omega
  have hcseq : cs = 65535 - foldCarry (sumAccum 0 (t :: c :: 0 :: 0 :: R)) := by
    rw [hcsdef]
    show (4294967295 - foldCarry (sumAccum 0 _)) % 65536 = _
    have := foldCarry_lt (sumAccum 0 (t :: c :: 0 :: 0 :: R))
    omega
  rw [hEsum, hcseq]
  exact foldCarry_verify _ hzb

/-- C8: over an encoded buffer, with the stored checksum bytes in
place, the carry-folded one's-complement word sum (which folds the
stored checksum together with the sum of all other words) is `0xFFFF`;
equivalently, recomputing `ComputeChecksum` over the encoded buffer
gives 0. -/
theorem checksum_self_consistency (m : IcmpMessage) (h : m.WF) :
    foldCarry (sumAccum 0 m.Encode) = 65535
    ∧ ComputeChecksum m.Encode = 0 := by
  obtain ⟨h1, h2, h3, h4, h5, h6⟩ := h
  rw [encode_eq m h4 h5]
  constructor
  · exact self_consistency_core m.type_ m.code_ _
  · show (4294967295 - foldCarry (sumAccum 0 _)) % 65536 = 0
    rw [self_consistency_core m.type_ m.code_ _]

/-- C8 witness: the identity at a concrete message. -/
theorem checksum_self_consistency_witness :
    foldCarry (sumAccum 0 (IcmpMessage.Encode
      { type_ := 8, code_ := 0, checksum_ := 0, identifier_ := 515,
        sequence_number_ := 2, data_ := [7, 9, 11] })) = 65535
    ∧ ComputeChecksum (IcmpMessage.Encode
      { type_ := 8, code_ := 0, checksum_ := 0, identifier_ := 515,
        sequence_number_ := 2, data_ := [7, 9, 11] }) = 0 :=
  checksum_self_consistency
    { type_ := 8, code_ := 0, checksum_ := 0, identifier_ := 515,
      sequence_number_ := 2, data_ := [7, 9, 11] } (by decide)

lemma foldStep_eq (s : Nat) : foldStep s =
    if s >>> 16 = 0 then s
    else (s % 65536 + s >>> 16) % 4294967296 := rfl

/-- C9: the carry-fold loop terminates on every buffer (the checksum is
a total function returning a 16-bit value), each executed iteration
strictly decreases the accumulator, and for every accumulator value
representable in the `uint32_t` `sum` the loop reaches its fixed point
within two iterations. -/
theorem carry_fold_two_iterations :
    (∀ buffer : List Nat, ComputeChecksum buffer < 65536)
    ∧ (∀ s : Nat, 65536 ≤ s → foldStep s < s)
    ∧ (∀ s : Nat, s < 4294967296 → foldCarry s = foldStep (foldStep s)) := by
  refine ⟨checksum_lt, fun s hs => ?_, fun s hs => ?_⟩
  · have hg : ¬ s >>> 16 = 0 := by
      rw [shiftRight16_eq_div]
      omega
    rw [foldStep_eq, if_neg hg]
    exact foldCarry_next_lt s hg
  · have hstep_pos : ∀ u : Nat, u >>> 16 = 0 → foldStep u = u := by
      intro u hu
      rw [foldStep_eq, if_pos hu]
    have hstep_neg : ∀ u : Nat, ¬ u >>> 16 = 0 →
        foldStep u = (u % 65536 + u >>> 16) % 4294967296 := by
      intro u hu
      rw [foldStep_eq, if_neg hu]
    by_cases hg : s >>> 16 = 0
    · rw [foldCarry_unfold, if_pos hg, hstep_pos s hg, hstep_pos s hg]
    · rw [foldCarry_unfold, if_neg hg, hstep_neg s hg,
        shiftRight16_eq_div s]
      have hraw : s % 65536 + s / 65536 ≤ 131070 := by omega
      rw [Nat.mod_eq_of_lt
        (show s % 65536 + s / 65536 < 4294967296 by omega)]
      set u := s % 65536 + s / 65536 with hu
      by_cases hg1 : u >>> 16 = 0
      · rw [foldCarry_unfold, if_pos hg1, hstep_pos u hg1]
      · rw [foldCarry_unfold, if_neg hg1, hstep_neg u hg1,
          shiftRight16_eq_div u]
        have hg1' : ¬ u / 65536 = 0 := by
          rw [← shiftRight16_eq_div]
          exact hg1
        have hraw2 : u % 65536 + u / 65536 < 65536 := by omega
        rw [Nat.mod_eq_of_lt
          (show u % 65536 + u / 65536 < 4294967296 by omega)]
        have hs2 : (u % 65536 + u / 65536) >>> 16 = 0 := by
          rw [shiftRight16_eq_div]
          exact Nat.div_eq_of_lt hraw2
        rw [foldCarry_unfold, if_pos hs2]

/-- C9 witness: strict decrease and the two-iteration bound at concrete
accumulator values. -/
theorem carry_fold_two_iterations_witness :
    foldStep 70000 < 70000
    ∧ foldCarry 305419896 = foldStep (foldStep 305419896) :=
  ⟨carry_fold_two_iterations.2.1 70000 (by norm_num),
   carry_fold_two_iterations.2.2 305419896 (by norm_num)⟩

/-- C10 counterexample: the public section of `include/icmp_message.h`
declares read-only accessors only for `type`, `code`, `identifier`,
`sequence_number` and `data`; there is no accessor for the `checksum`
field, so the claim that an accessor exists for each of the six fields
(including checksum) is false. -/
theorem accessor_checksum_missing :
    "checksum" ∉ IcmpMessage.publicAccessors := by decide

/-- C10 amended: read-only accessors exist for the five fields `type`,
`code`, `identifier`, `sequence_number` and `data` (but none for the
checksum), and on every message built by the parameterized constructor
each accessor returns exactly the constructed value. -/
theorem accessors_return_constructed_values :
    (∀ (t c id seq : Nat) (d : List Nat),
      (IcmpMessage.mkParam t c id seq d).type = t ∧
      (IcmpMessage.mkParam t c id seq d).code = c ∧
      (IcmpMessage.mkParam t c id seq d).identifier = id ∧
      (IcmpMessage.mkParam t c id seq d).sequence_number = seq ∧
      (IcmpMessage.mkParam t c id seq d).data = d)
    ∧ "type" ∈ IcmpMessage.publicAccessors
    ∧ "code" ∈ IcmpMessage.publicAccessors
    ∧ "identifier" ∈ IcmpMessage.publicAccessors
    ∧ "sequence_number" ∈ IcmpMessage.publicAccessors
    ∧ "data" ∈ IcmpMessage.publicAccessors
    ∧ "checksum" ∉ IcmpMessage.publicAccessors :=
  ⟨fun _ _ _ _ _ => ⟨rfl, rfl, rfl, rfl, rfl⟩,
   by decide, by decide, by decide, by decide, by decide, by decide⟩
